import Mathlib

/-!
Verification development for the Data Source core
(`src/core/src/data_sources/data_source.rs`).

The Rust code is shallowly embedded:
* `usize`/`u64` machine integers are modeled by `Nat`, with Rust's release-mode
  truncating subtraction modeled by `Nat` subtraction (under every precondition
  used below no subtraction underflows, so debug and release semantics agree);
* `i64` division (which truncates toward zero) is modeled by `Int.tdiv`;
* fallible code returns `Except`, and Rust panics (integer division by zero,
  `Option::unwrap` on `None`) are modeled as explicit error values;
* the external collaborators (metadata store, blob store, vector index,
  embedder, splitter, clock) are injected as oracle fields of environment
  structures, and every externally visible call is recorded as an `Effect`;
* Rust's `String` is modeled by Lean's `String`; `str::starts_with` is byte
  prefix testing, which for valid UTF-8 strings coincides with character-list
  prefix testing (UTF-8 is self-synchronizing), modeled on `String.data`;
* the fixed cryptographic hash (blake3, hex-encoded) is an injected pure
  function `H : String → String` of the concatenated update bytes;
* `f64` scores only flow through the code as opaque payload data and sort keys,
  so they are modeled by `Int` (`partial_cmp ... unwrap_or(Equal)` on non-NaN
  floats is the total order on the values).
-/

/-- Rust `str::starts_with`: the needle is a prefix of the haystack
(`tag.starts_with(DATA_SOURCE_DOCUMENT_SYSTEM_TAG_PREFIX)` in the source). -/
def starts_with (s pre : String) : Bool :=
  pre.data.isPrefixOf s.data

/-! ## The neighborhood planner `target_document_tokens_offsets`
(data_source.rs lines 145-194). -/

/-- First loop of `target_document_tokens_offsets` (lines 163-183): compute the
`(cur_extra_left, cur_extra_right)` window of each anchor, left to right.
`lbound` is `offsets[i-1] + 1 + extras[i-1].1` (and `0` for `i = 0`, where the
source uses `cur_extra_left = offsets[0]`). -/
def plannerExtras (num_per_chunk total_chunks_count : Nat) :
    List Nat → Nat → List (Nat × Nat)
  | [], _ => []
  | o :: rest, lbound =>
    let cur_extra_right : Nat :=
      match rest with
      | [] => total_chunks_count - o - 1
      | o2 :: _ => o2 - o - 1
    let cur_extra_left : Nat := o - lbound
    let e : Nat × Nat :=
      if num_per_chunk / 2 ≤ cur_extra_left ∧ num_per_chunk / 2 ≤ cur_extra_right then
        (num_per_chunk / 2, num_per_chunk / 2)
      else if cur_extra_left + cur_extra_right < num_per_chunk then
        (cur_extra_left, cur_extra_right)
      else if cur_extra_left < cur_extra_right then
        (cur_extra_left, num_per_chunk - cur_extra_left)
      else
        (num_per_chunk - cur_extra_right, cur_extra_right)
    e :: plannerExtras num_per_chunk total_chunks_count rest (o + 1 + e.2)

/-- Inner loop of the second pass (lines 186-191): walk the window of one
anchor, and record each offset not yet in `offset_set` into the results
(the `HashMap` is modeled as the association list `res`, in insertion order;
keys are inserted at most once, exactly as in the source). -/
def emitWindow (anchor : Nat) : List Nat → List Nat → List (Nat × Nat) →
    List Nat × List (Nat × Nat)
  | [], seen, res => (seen, res)
  | off :: rest, seen, res =>
    if off ∈ seen then emitWindow anchor rest seen res
    else emitWindow anchor rest (off :: seen) (res ++ [(off, anchor)])

/-- Second pass of `target_document_tokens_offsets` (lines 184-192): for each
anchor `offsets[i]` with window `(cur_extra_left, cur_extra_right)`, emit the
integer range `offsets[i] - cur_extra_left .. offsets[i] + cur_extra_right + 1`. -/
def emitAll : List (Nat × Nat × Nat) → List Nat → List (Nat × Nat) →
    List (Nat × Nat)
  | [], _, res => res
  | (o, l, r) :: rest, seen, res =>
    let window := List.range' (o - l) (o + r + 1 - (o - l))
    let p := emitWindow o window seen res
    emitAll rest p.1 p.2

/-- `target_document_tokens_offsets(offsets, chunks_to_grow, total_chunks_count)`
(lines 145-194).  The returned `HashMap<usize, usize>` is modeled as an
association list with pairwise distinct keys (`extra_offset → anchor_offset`).
`none` models the `usize` division-by-zero panic of
`chunks_to_grow / offsets.len()` (line 162) when `offsets` is empty, which the
source reaches only after the `total_chunks_count == 0` early return. -/
def target_document_tokens_offsets (offsets : List Nat)
    (chunks_to_grow total_chunks_count : Nat) : Option (List (Nat × Nat)) :=
  if total_chunks_count = 0 then some []
  else
    let offsets := offsets.insertionSort (· ≤ ·)
    match offsets with
    | [] => none
    | _ :: _ =>
      let num_per_chunk := chunks_to_grow / offsets.length
      let extras := plannerExtras num_per_chunk total_chunks_count offsets 0
      some (emitAll (offsets.zip extras) offsets [])

/-! ## Planner lemmas -/

theorem plannerExtras_length (npc t : Nat) :
    ∀ (l : List Nat) (b : Nat), (plannerExtras npc t l b).length = l.length := by
  intro l
  induction l with
  | nil => intro b; rfl
  | cons o rest ih => intro b; simp only [plannerExtras, List.length_cons, ih]

/-- Every window has `cur_extra_left + cur_extra_right ≤ num_per_chunk`. -/
theorem plannerExtras_sum_le (npc t : Nat) :
    ∀ (l : List Nat) (b : Nat), ∀ e ∈ plannerExtras npc t l b, e.1 + e.2 ≤ npc := by
  intro l
  induction l with
  | nil => intro b e he; simp [plannerExtras] at he
  | cons o rest ih =>
    intro b e he
    simp only [plannerExtras, List.mem_cons] at he
    rcases he with he | he
    · subst he
      split_ifs with h1 h2 h3 <;> simp <;> omega
    · exact ih _ e he

/-- For a strictly increasing offsets list bounded by `t`, each anchor plus its
right window stays below `t` (otherwise the window would leave the document). -/
theorem plannerExtras_right_lt (npc t : Nat) :
    ∀ (l : List Nat) (b : Nat), l.Chain' (· < ·) → (∀ o ∈ l, o < t) →
      ∀ p ∈ l.zip (plannerExtras npc t l b), p.1 + p.2.2 < t := by
  intro l
  induction l with
  | nil => intro b _ _ p hp; simp [plannerExtras] at hp
  | cons o rest ih =>
    intro b hchain hlt p hp
    simp only [plannerExtras, List.zip_cons_cons, List.mem_cons] at hp
    rcases hp with hp | hp
    · subst hp
      have ho : o < t := hlt o (List.mem_cons_self o rest)
      cases rest with
      | nil => simp only []; split_ifs with h1 h2 h3 <;> simp <;> omega
      | cons o2 rest' =>
        have ho2 : o < o2 := List.chain'_cons.mp hchain |>.1
        have ho2t : o2 < t := hlt o2 (List.mem_cons_of_mem o (List.mem_cons_self o2 rest'))
        simp only []
        split_ifs with h1 h2 h3 <;> simp <;> omega
    · exact ih _ hchain.tail (fun x hx => hlt x (List.mem_cons_of_mem o hx)) p hp

theorem emitWindow_seen_subset (anchor : Nat) :
    ∀ (w seen : List Nat) (res : List (Nat × Nat)),
      seen ⊆ (emitWindow anchor w seen res).1 := by
  intro w
  induction w with
  | nil => intro seen res; exact fun x hx => hx
  | cons off rest ih =>
    intro seen res
    simp only [emitWindow]
    split
    · exact ih seen res
    · exact fun x hx => ih (off :: seen) _ (List.mem_cons_of_mem off hx)

/-- Main invariant of the emission loop: all result keys are tracked in `seen`,
are pairwise distinct, lie below `t`, and avoid the hit set `O`. -/
theorem emitWindow_inv (anchor t : Nat) (O : List Nat) :
    ∀ (w seen : List Nat) (res : List (Nat × Nat)),
      (∀ x ∈ w, x < t) →
      O ⊆ seen →
      (∀ k ∈ res.map Prod.fst, k ∈ seen) →
      (res.map Prod.fst).Nodup →
      (∀ k ∈ res.map Prod.fst, k < t ∧ k ∉ O) →
      O ⊆ (emitWindow anchor w seen res).1 ∧
      (∀ k ∈ (emitWindow anchor w seen res).2.map Prod.fst,
        k ∈ (emitWindow anchor w seen res).1) ∧
      ((emitWindow anchor w seen res).2.map Prod.fst).Nodup ∧
      (∀ k ∈ (emitWindow anchor w seen res).2.map Prod.fst, k < t ∧ k ∉ O) := by
  intro w
  induction w with
  | nil =>
    intro seen res _ hO hkeys hnd hprop
    exact ⟨hO, hkeys, hnd, hprop⟩
  | cons off rest ih =>
    intro seen res hw hO hkeys hnd hprop
    simp only [emitWindow]
    split
    case isTrue hmem =>
      exact ih seen res (fun x hx => hw x (List.mem_cons_of_mem off hx)) hO hkeys hnd hprop
    case isFalse hmem =>
      apply ih (off :: seen) (res ++ [(off, anchor)])
        (fun x hx => hw x (List.mem_cons_of_mem off hx))
      · exact fun x hx => List.mem_cons_of_mem off (hO hx)
      · intro k hk
        simp only [List.map_append, List.map_cons, List.map_nil, List.mem_append,
          List.mem_singleton] at hk
        rcases hk with hk | hk
        · exact List.mem_cons_of_mem off (hkeys k hk)
        · subst hk; exact List.mem_cons_self _ _
      · simp only [List.map_append, List.map_cons, List.map_nil]
        rw [List.nodup_append]
        refine ⟨hnd, List.nodup_singleton off, ?_⟩
        intro k hk hk'
        rw [List.mem_singleton] at hk'
        subst hk'
        exact hmem (hkeys k hk)
      · intro k hk
        simp only [List.map_append, List.map_cons, List.map_nil, List.mem_append,
          List.mem_singleton] at hk
        rcases hk with hk | hk
        · exact hprop k hk
        · rw [hk]
          exact ⟨hw off (List.mem_cons_self off rest), fun hin => hmem (hO hin)⟩

theorem emitAll_inv (t : Nat) (O : List Nat) :
    ∀ (pairs : List (Nat × Nat × Nat)) (seen : List Nat) (res : List (Nat × Nat)),
      (∀ p ∈ pairs, p.1 + p.2.2 < t) →
      O ⊆ seen →
      (∀ k ∈ res.map Prod.fst, k ∈ seen) →
      (res.map Prod.fst).Nodup →
      (∀ k ∈ res.map Prod.fst, k < t ∧ k ∉ O) →
      ((emitAll pairs seen res).map Prod.fst).Nodup ∧
      (∀ k ∈ (emitAll pairs seen res).map Prod.fst, k < t ∧ k ∉ O) := by
  intro pairs
  induction pairs with
  | nil =>
    intro seen res _ _ _ hnd hprop
    exact ⟨hnd, hprop⟩
  | cons p rest ih =>
    intro seen res hpairs hO hkeys hnd hprop
    obtain ⟨o, l, r⟩ := p
    simp only [emitAll]
    have hwlt : ∀ x ∈ List.range' (o - l) (o + r + 1 - (o - l)), x < t := by
      intro x hx
      rw [List.mem_range'_1] at hx
      have : o + r < t := hpairs (o, l, r) (List.mem_cons_self _ _)
      omega
    have hwin := emitWindow_inv o t O (List.range' (o - l) (o + r + 1 - (o - l)))
      seen res hwlt hO hkeys hnd hprop
    exact ih _ _ (fun q hq => hpairs q (List.mem_cons_of_mem _ hq))
      hwin.1 hwin.2.1 hwin.2.2.1 hwin.2.2.2

theorem emitWindow_length_le (anchor : Nat) :
    ∀ (w seen : List Nat) (res : List (Nat × Nat)),
      (emitWindow anchor w seen res).2.length ≤ res.length + w.length := by
  intro w
  induction w with
  | nil => intro seen res; simp [emitWindow]
  | cons off rest ih =>
    intro seen res
    simp only [emitWindow, List.length_cons]
    split
    · have := ih seen res; omega
    · have := ih (off :: seen) (res ++ [(off, anchor)])
      simp only [List.length_append, List.length_singleton] at this
      omega

/-- If some window element is already in `seen`, the emission loop adds
strictly fewer than `w.length` results. -/
theorem emitWindow_length_lt (anchor : Nat) :
    ∀ (w seen : List Nat) (res : List (Nat × Nat)) (x : Nat),
      x ∈ w → x ∈ seen →
      (emitWindow anchor w seen res).2.length + 1 ≤ res.length + w.length := by
  intro w
  induction w with
  | nil => intro seen res x hx; exact absurd hx (List.not_mem_nil x)
  | cons off rest ih =>
    intro seen res x hx hseen
    simp only [emitWindow, List.length_cons]
    split
    case isTrue h =>
      have := emitWindow_length_le anchor rest seen res
      omega
    case isFalse h =>
      have hxr : x ∈ rest := by
        rcases List.mem_cons.mp hx with hx | hx
        · exact absurd (hx ▸ hseen) h
        · exact hx
      have := ih (off :: seen) (res ++ [(off, anchor)]) x hxr (List.mem_cons_of_mem off hseen)
      simp only [List.length_append, List.length_singleton] at this
      omega

theorem emitAll_length (npc : Nat) (O : List Nat) :
    ∀ (pairs : List (Nat × Nat × Nat)) (seen : List Nat) (res : List (Nat × Nat)),
      (∀ p ∈ pairs, p.1 ∈ O ∧ p.2.1 + p.2.2 ≤ npc) →
      O ⊆ seen →
      (emitAll pairs seen res).length ≤ res.length + pairs.length * npc := by
  intro pairs
  induction pairs with
  | nil => intro seen res _ _; simp [emitAll]
  | cons p rest ih =>
    intro seen res hpairs hO
    obtain ⟨o, l, r⟩ := p
    have hp := hpairs (o, l, r) (List.mem_cons_self _ _)
    have hpsum : l + r ≤ npc := hp.2
    simp only [emitAll]
    have hmemw : o ∈ List.range' (o - l) (o + r + 1 - (o - l)) := by
      rw [List.mem_range'_1]; omega
    have hwinlen := emitWindow_length_lt o (List.range' (o - l) (o + r + 1 - (o - l)))
      seen res o hmemw (hO hp.1)
    rw [List.length_range'] at hwinlen
    have hstep := ih (emitWindow o (List.range' (o - l) (o + r + 1 - (o - l))) seen res).1
      (emitWindow o (List.range' (o - l) (o + r + 1 - (o - l))) seen res).2
      (fun q hq => hpairs q (List.mem_cons_of_mem _ hq))
      (fun x hx => emitWindow_seen_subset o _ seen res (hO hx))
    rw [List.length_cons, Nat.succ_mul]
    omega

/-- A duplicate-free list of naturals all below `t` has at most `t` elements. -/
theorem nodup_lt_length_le {t : Nat} {L : List Nat} (h : L.Nodup)
    (hlt : ∀ x ∈ L, x < t) : L.length ≤ t := by
  calc L.length = L.toFinset.card := (List.toFinset_card_of_nodup h).symm
    _ ≤ (Finset.range t).card := Finset.card_le_card (fun x hx => by
        simp only [Finset.mem_range]
        exact hlt x (List.mem_toFinset.mp hx))
    _ = t := Finset.card_range t

/-- Unfolding of the planner for a sorted non-empty offsets list and a
non-empty document. -/
theorem tdto_some (offsets : List Nat) (g t : Nat) (ht : ¬ t = 0)
    (hs : offsets.Sorted (· ≤ ·)) (hne : offsets ≠ []) :
    target_document_tokens_offsets offsets g t =
      some (emitAll
        (offsets.zip (plannerExtras (g / offsets.length) t offsets 0))
        offsets []) := by
  obtain ⟨o, rest, rfl⟩ := List.exists_cons_of_ne_nil hne
  simp only [target_document_tokens_offsets, if_neg ht,
    List.Sorted.insertionSort_eq hs]

/-- **C1**: the neighborhood planner reproduces the spec's reference scenarios
exactly: `([1,4,5], 6, 8)` yields `{0→1, 2→1, 3→4, 6→5, 7→5}` and
`([7,9,11], 18, 18)` yields `{2→7, 3→7, 4→7, 5→7, 6→7, 8→7, 10→9, 12→11,
13→11, 14→11, 15→11, 16→11, 17→11}` (the association list below lists each
`extra_offset → anchor_offset` binding of the returned map exactly once). -/
theorem planner_reference_scenarios :
    target_document_tokens_offsets [1, 4, 5] 6 8 =
      some [(0, 1), (2, 1), (3, 4), (6, 5), (7, 5)] ∧
    target_document_tokens_offsets [7, 9, 11] 18 18 =
      some [(2, 7), (3, 7), (4, 7), (5, 7), (6, 7), (8, 7), (10, 9),
        (12, 11), (13, 11), (14, 11), (15, 11), (16, 11), (17, 11)] := by
  constructor <;> decide

/-- **C2**: for sorted distinct hit offsets in `[0, t)`, non-empty, every
returned extra offset lies in `[0, t)`, is not a hit offset, and the returned
extra offsets are pairwise distinct. -/
theorem planner_range_disjoint_distinct (offsets : List Nat) (g t : Nat)
    (hsorted : offsets.Sorted (· < ·))
    (hrange : ∀ o ∈ offsets, o < t)
    (hne : offsets ≠ []) :
    ∃ res, target_document_tokens_offsets offsets g t = some res ∧
      (∀ p ∈ res, p.1 < t ∧ p.1 ∉ offsets) ∧
      (res.map Prod.fst).Nodup := by
  have ht : ¬ t = 0 := by
    obtain ⟨o, rest, rfl⟩ := List.exists_cons_of_ne_nil hne
    have := hrange o (List.mem_cons_self _ _)
    omega
  have hsle : offsets.Sorted (· ≤ ·) := hsorted.imp (fun h => le_of_lt h)
  rw [tdto_some offsets g t ht hsle hne]
  have hchain : offsets.Chain' (· < ·) := List.chain'_iff_pairwise.mpr hsorted
  have hemit := emitAll_inv t offsets
    (offsets.zip (plannerExtras (g / offsets.length) t offsets 0)) offsets []
    (plannerExtras_right_lt _ t offsets 0 hchain hrange)
    (fun x hx => hx) (by simp) (by simp) (by simp)
  refine ⟨_, rfl, ?_, hemit.1⟩
  intro p hp
  exact hemit.2 p.1 (List.mem_map_of_mem Prod.fst hp)

/-- **C3**: for sorted distinct hit offsets in `[0, t)`, non-empty, the number
of returned extra offsets is at most the budget `g` and at most
`t - offsets.length`. -/
theorem planner_boundedness (offsets : List Nat) (g t : Nat)
    (hsorted : offsets.Sorted (· < ·))
    (hrange : ∀ o ∈ offsets, o < t)
    (hne : offsets ≠ []) :
    ∃ res, target_document_tokens_offsets offsets g t = some res ∧
      res.length ≤ g ∧ res.length ≤ t - offsets.length := by
  have ht : ¬ t = 0 := by
    obtain ⟨o, rest, rfl⟩ := List.exists_cons_of_ne_nil hne
    have := hrange o (List.mem_cons_self _ _)
    omega
  have hsle : offsets.Sorted (· ≤ ·) := hsorted.imp (fun h => le_of_lt h)
  rw [tdto_some offsets g t ht hsle hne]
  refine ⟨_, rfl, ?_, ?_⟩
  · -- |returned| ≤ g: each anchor adds at most ⌊g/n⌋ offsets.
    have hlen := emitAll_length (g / offsets.length) offsets
      (offsets.zip (plannerExtras (g / offsets.length) t offsets 0)) offsets []
      (fun p hp => ⟨(List.of_mem_zip hp).1,
        plannerExtras_sum_le _ t offsets 0 p.2 (List.of_mem_zip hp).2⟩)
      (fun x hx => hx)
    have hziplen :
        (offsets.zip (plannerExtras (g / offsets.length) t offsets 0)).length
          = offsets.length := by
      rw [List.length_zip, plannerExtras_length, Nat.min_self]
    rw [hziplen, List.length_nil] at hlen
    calc (emitAll (offsets.zip (plannerExtras (g / offsets.length) t offsets 0))
          offsets []).length
        ≤ 0 + offsets.length * (g / offsets.length) := hlen
      _ = g / offsets.length * offsets.length := by rw [Nat.zero_add, Nat.mul_comm]
      _ ≤ g := Nat.div_mul_le_self g offsets.length
  · -- |returned| ≤ t - |offsets|: keys and hits are disjoint subsets of [0, t).
    have hchain : offsets.Chain' (· < ·) := List.chain'_iff_pairwise.mpr hsorted
    have hemit := emitAll_inv t offsets
      (offsets.zip (plannerExtras (g / offsets.length) t offsets 0)) offsets []
      (plannerExtras_right_lt _ t offsets 0 hchain hrange)
      (fun x hx => hx) (by simp) (by simp) (by simp)
    have hOnd : offsets.Nodup := hsorted.imp (fun h => ne_of_lt h)
    have hnd : ((emitAll (offsets.zip (plannerExtras (g / offsets.length) t
        offsets 0)) offsets []).map Prod.fst ++ offsets).Nodup := by
      rw [List.nodup_append]
      exact ⟨hemit.1, hOnd, fun k hk => (hemit.2 k hk).2⟩
    have hall : ∀ x ∈ (emitAll (offsets.zip (plannerExtras (g / offsets.length) t
        offsets 0)) offsets []).map Prod.fst ++ offsets, x < t := by
      intro x hx
      rcases List.mem_append.mp hx with hx | hx
      · exact (hemit.2 x hx).1
      · exact hrange x hx
    have := nodup_lt_length_le hnd hall
    rw [List.length_append, List.length_map] at this
    omega

/-- Witness for C2 at the concrete input `([1,4,5], 6, 8)`. -/
theorem planner_range_disjoint_distinct_witness :
    List.Sorted (· < ·) [1, 4, 5] ∧ (∀ o ∈ [1, 4, 5], o < 8) ∧ [1, 4, 5] ≠ [] ∧
    (∃ res, target_document_tokens_offsets [1, 4, 5] 6 8 = some res ∧
      (∀ p ∈ res, p.1 < 8 ∧ p.1 ∉ [1, 4, 5]) ∧
      (res.map Prod.fst).Nodup) :=
  ⟨by decide, by decide, by decide,
    planner_range_disjoint_distinct [1, 4, 5] 6 8 (by decide) (by decide) (by decide)⟩

/-- Witness for C3 at the concrete input `([7,9,11], 18, 18)`. -/
theorem planner_boundedness_witness :
    List.Sorted (· < ·) [7, 9, 11] ∧ (∀ o ∈ [7, 9, 11], o < 18) ∧
    [7, 9, 11] ≠ [] ∧
    (∃ res, target_document_tokens_offsets [7, 9, 11] 18 18 = some res ∧
      res.length ≤ 18 ∧ res.length ≤ 18 - [7, 9, 11].length) :=
  ⟨by decide, by decide, by decide,
    planner_boundedness [7, 9, 11] 18 18 (by decide) (by decide) (by decide)⟩

/-! ## Data model (data_source.rs lines 27-143) -/

/-- `TagsFilter` (lines 28-33); serde renames `is_in`/`is_not` to `in`/`not`. -/
structure TagsFilter where
  is_in : Option (List String)
  is_not : Option (List String)
deriving DecidableEq

/-- `TimestampFilter` (lines 38-41). -/
structure TimestampFilter where
  gt : Option Nat
  lt : Option Nat
deriving DecidableEq

/-- `SearchFilter` (lines 46-49). -/
structure SearchFilter where
  tags : Option TagsFilter
  timestamp : Option TimestampFilter
deriving DecidableEq

/-- `Chunk` (lines 62-68); `f64` vector entries and scores are modeled as
`Int` (only their identity and, for scores, their ordering are used). -/
structure Chunk where
  text : String
  hash : String
  offset : Nat
  vector : Option (List Int)
  score : Option Int
deriving DecidableEq

/-- `Document` (lines 75-89). -/
structure Document where
  data_source_id : String
  created : Nat
  document_id : String
  timestamp : Nat
  tags : List String
  source_url : Option String
  hash : String
  text_size : Nat
  chunk_count : Nat
  chunks : List Chunk
  text : Option String
  token_count : Option Nat
deriving DecidableEq

/-- `Document::new` (lines 92-115); `created_now` is the `utils::now()` call
of line 103. -/
def Document.new (data_source_id document_id : String) (timestamp : Nat)
    (tags : List String) (source_url : Option String) (hash : String)
    (text_size : Nat) (created_now : Nat) : Document :=
  { data_source_id := data_source_id
    created := created_now
    document_id := document_id
    timestamp := timestamp
    tags := tags
    source_url := source_url
    hash := hash
    text_size := text_size
    chunk_count := 0
    chunks := []
    text := none
    token_count := none }

/-- `DataSourceConfig` (lines 125-132); the provider/splitter identifiers are
inert data here and are modeled as strings. -/
structure DataSourceConfig where
  provider_id : String
  model_id : String
  extras : Option String
  splitter_id : String
  max_chunk_size : Nat
  use_cache : Bool
deriving DecidableEq

/-- `DataSource` (lines 137-143); `project_id` is the numeric id of the owning
`Project`. -/
structure DataSource where
  project_id : Nat
  created : Nat
  data_source_id : String
  internal_id : String
  config : DataSourceConfig
deriving DecidableEq

/-! ## Qdrant filter model (the conditions `search` builds, lines 688-770) -/

/-- `qdrant::Range`; the source puts `u64` timestamps into the `f64` fields
(`v as f64`), modeled as `Nat` (exact for realistic timestamps). Fields not
set by `..Default::default()` are `none`. -/
structure QRange where
  lt : Option Nat
  gt : Option Nat
  gte : Option Nat
  lte : Option Nat
deriving DecidableEq

/-- `qdrant::r#match::MatchValue` variants used by the source. -/
inductive QMatchValue where
  | keyword (s : String)
  | text (s : String)
  | keywords (strings : List String)
  | integers (ints : List Int)
deriving DecidableEq

/-- `qdrant::FieldCondition` (with the fields the source sets). -/
structure QFieldCondition where
  key : String
  matchValue : Option QMatchValue
  range : Option QRange
deriving DecidableEq

/-- `qdrant::Filter`. -/
structure QFilter where
  must : List QFieldCondition
  must_not : List QFieldCondition
  should : List QFieldCondition
deriving DecidableEq

/-- Filter composition of `DataSource::search` (lines 688-770): `tags.is_in`
pushes a keywords condition onto `must`, `tags.is_not` onto `must_not`, then
`timestamp.gt` pushes a `gte` range and `timestamp.lt` a `lte` range onto
`must`, in source push order. -/
def buildSearchFilter : Option SearchFilter → Option QFilter
  | none => none
  | some f =>
    let must_filter : List QFieldCondition :=
      (match f.tags with
       | some tags =>
         match tags.is_in with
         | some v => [{ key := "tags", matchValue := some (.keywords v), range := none }]
         | none => []
       | none => []) ++
      (match f.timestamp with
       | some timestamp =>
         (match timestamp.gt with
          | some v =>
            [{ key := "timestamp"
               matchValue := none
               range := some { lt := none, gt := none, gte := some v, lte := none } }]
          | none => []) ++
         (match timestamp.lt with
          | some v =>
            [{ key := "timestamp"
               matchValue := none
               range := some { lt := none, gt := none, gte := none, lte := some v } }]
          | none => [])
       | none => [])
    let must_not_filter : List QFieldCondition :=
      match f.tags with
      | some tags =>
        match tags.is_not with
        | some v => [{ key := "tags", matchValue := some (.keywords v), range := none }]
        | none => []
      | none => []
    some { must := must_filter, must_not := must_not_filter, should := [] }

/-- Modelled from the spec: the vector engine's numeric range-condition
semantics (the engine is an external collaborator; `search` only builds the
condition). A payload value satisfies a `qdrant::Range` when it meets every
bound that is present: `gte`/`lte` are inclusive, `gt`/`lt` strict. -/
def rangeSatisfied (v : Nat) (r : QRange) : Bool :=
  (match r.gte with | some b => decide (b ≤ v) | none => true) &&
  (match r.lte with | some b => decide (v ≤ b) | none => true) &&
  (match r.gt with | some b => decide (b < v) | none => true) &&
  (match r.lt with | some b => decide (v < b) | none => true)

/-! ## Effects and errors -/

/-- Externally visible operations issued by `upsert`/`search`, recorded in
call order (concurrently issued batches — the `try_join!` blob puts, the
`buffer_unordered` embeds and document loads — are recorded in their
enumeration order, a canonical serialization of the unordered completion). -/
inductive Effect where
  | storeLoadDocument (document_id : String)
  | blobPut (path : String) (content : String)
  | splitText (text : String)
  | embedChunk (text : String)
  | qdrantDeletePoints (document_id_hash : String)
  | qdrantUpsertPoints (count : Nat)
  | storeUpsertDocument (doc : Document)
  | embedQuery (query : String)
  | qdrantSearch (top_k : Nat) (filter : Option QFilter)
  | blobGet (path : String)
  | qdrantScroll (document_id_hash : String) (offsets : List Nat) (limit : Nat)
deriving DecidableEq

/-- Rust panics reachable in the modeled code. -/
inductive CrashKind where
  | plannerDivByZero
  | anchorUnwrapNone
deriving DecidableEq

/-- The error outcomes of the modeled methods (`anyhow::Error` values are
distinguished by their origin; `crash` marks a Rust panic, which in the
source aborts instead of returning `Err`). -/
inductive DustError where
  | invalidArgument (msg : String)
  | configError (msg : String)
  | documentNotFound
  | crash (k : CrashKind)
deriving DecidableEq

/-! ## Write path: `DataSource::upsert` (lines 395-660) -/

/-- Oracle answers of the collaborators used by one `upsert` call. -/
structure UpsertEnv where
  /-- `store.load_data_source_document` answer (line 422). -/
  currentDoc : Option Document
  /-- `DUST_DATA_SOURCES_BUCKET` (line 481). -/
  bucket : Option String
  /-- `QDRANT_URL` (line 244, via `qdrant_client()` at line 590). -/
  qdrantUrl : Option String
  /-- `QDRANT_API_KEY` (line 247). -/
  qdrantApiKey : Option String
  /-- Splitter output `S` (line 531). -/
  splits : List String
  /-- Embedder vectors per chunk text (line 550). -/
  embed : String → List Int
  /-- `utils::now()` at the timestamp default (line 453). -/
  now : Nat
  /-- `utils::now()` inside `Document::new` (line 103). -/
  created_now : Nat

/-- The byte stream fed to the blake3 hasher for the document version hash
(lines 457-464): `document_id`, then `text`, then `format!("{}", timestamp)`
(ascii decimal), then each tag in order. -/
def documentHashBytes (document_id text : String) (timestamp : Nat)
    (tags : List String) : String :=
  tags.foldl (fun st tag => st ++ tag)
    ((("" ++ document_id) ++ text) ++ toString timestamp)

/-- `serde_json::to_string(&tags)` (line 513), modeled as an opaque injective
rendering of the tag list (its exact bytes are irrelevant to the claims). -/
def tagsJson (tags : List String) : String :=
  toString tags

/-- The tag list that `upsert` actually hashes and stores (lines 421-449):
the supplied tags followed — without deduplication — by the system-prefixed
tags of the current document row (empty if `preserve_system_tags` is off or
no row exists). -/
def upsertMergedTags (systemTagPrefix : String) (env : UpsertEnv)
    (tags : List String) (preserve_system_tags : Bool) : List String :=
  tags ++
    (if preserve_system_tags = true then
      (match env.currentDoc with
       | some current_doc => current_doc.tags
       | none => []).filter (fun tag => starts_with tag systemTagPrefix)
    else [])

/-- `DataSource::upsert` (lines 395-660).  Returns the effect trace and the
result.  `systemTagPrefix` is the constant
`DATA_SOURCE_DOCUMENT_SYSTEM_TAG_PREFIX` from `crate::consts` (outside this
file's sources, hence a parameter). -/
def DataSource.upsert (ds : DataSource) (H : String → String)
    (systemTagPrefix : String) (env : UpsertEnv) (document_id : String)
    (timestamp : Option Nat) (tags : List String) (source_url : Option String)
    (text : String) (preserve_system_tags : Bool) :
    List Effect × Except DustError Document :=
  -- lines 408-417: reject user-supplied system tags when preserving.
  if preserve_system_tags = true ∧
      tags.any (fun tag => starts_with tag systemTagPrefix) = true then
    ([], .error (.invalidArgument "preserve_system_tags"))
  else
    -- lines 421-443: load the current row (only when preserving) and keep
    -- its system-prefixed tags.
    let loadEffects : List Effect :=
      if preserve_system_tags = true then [.storeLoadDocument document_id] else []
    let current_system_tags : List String :=
      if preserve_system_tags = true then
        (match env.currentDoc with
         | some current_doc => current_doc.tags
         | none => []).filter (fun tag => starts_with tag systemTagPrefix)
      else []
    -- lines 445-449: append (no deduplication).
    let tags := tags ++ current_system_tags
    -- lines 451-454.
    let timestamp :=
      match timestamp with
      | some timestamp => timestamp
      | none => env.now
    -- lines 456-468.
    let document_hash := H (documentHashBytes document_id text timestamp tags)
    let document_id_hash := H document_id
    -- lines 470-478.
    let document := Document.new ds.data_source_id document_id timestamp tags
      source_url document_hash text.length env.created_now
    -- lines 480-484.
    match env.bucket with
    | none => (loadEffects, .error (.configError "DUST_DATA_SOURCES_BUCKET"))
    | some _ =>
      -- lines 486-523: blob archival (4 concurrent puts).
      let bucket_path := toString ds.project_id ++ "/" ++ ds.internal_id ++
        "/" ++ document_id_hash
      let document_id_path := bucket_path ++ "/document_id.txt"
      let content_path := bucket_path ++ "/" ++ document_hash ++ "/content.txt"
      let tags_path := bucket_path ++ "/" ++ document_hash ++ "/tags.json"
      let timestamp_path := bucket_path ++ "/" ++ document_hash ++ "/timestamp.txt"
      let blobEffects : List Effect :=
        [.blobPut document_id_path document_id,
         .blobPut content_path text,
         .blobPut tags_path (tagsJson tags),
         .blobPut timestamp_path (toString timestamp)]
      -- lines 530-539: split, then lines 541-567: embed each chunk.
      let splits := env.splits
      let embedEffects : List Effect := splits.map (fun s => .embedChunk s)
      -- lines 569-587: build chunks and counts.
      let chunks : List Chunk := splits.enum.map (fun p =>
        { text := p.2
          hash := H (document_hash ++ p.2)
          offset := p.1
          vector := some (env.embed p.2)
          score := none })
      let document := { document with
        chunks := chunks
        chunk_count := chunks.length
        token_count := some (chunks.length * ds.config.max_chunk_size) }
      -- line 590: `qdrant_client()` reads the env vars.
      match env.qdrantUrl, env.qdrantApiKey with
      | none, _ =>
        (loadEffects ++ blobEffects ++ [.splitText text] ++ embedEffects,
          .error (.configError "QDRANT_URL"))
      | some _, none =>
        (loadEffects ++ blobEffects ++ [.splitText text] ++ embedEffects,
          .error (.configError "QDRANT_API_KEY"))
      | some _, some _ =>
        -- lines 591-611: delete previous points; lines 613-647: insert new
        -- points (skipped when there are none); lines 654-657: commit row.
        let pointsCount := document.chunks.length
        (loadEffects ++ blobEffects ++ [.splitText text] ++ embedEffects ++
          [.qdrantDeletePoints document_id_hash] ++
          (if 0 < pointsCount then [.qdrantUpsertPoints pointsCount] else []) ++
          [.storeUpsertDocument document],
         .ok document)

/-! ## Upsert claims -/

/-- **C6**: with `preserve_system_tags = true`, a supplied tag carrying the
system prefix makes `upsert` fail with `InvalidArgument` before any effect;
otherwise the current row's system-prefixed tags are appended after the
supplied tags (no deduplication) in the committed document. -/
theorem upsert_system_tag_guard (ds : DataSource) (H : String → String)
    (systemTagPrefix : String) (env : UpsertEnv) (document_id : String)
    (timestamp : Option Nat) (tags : List String) (source_url : Option String)
    (text : String) :
    (tags.any (fun tag => starts_with tag systemTagPrefix) = true →
      ds.upsert H systemTagPrefix env document_id timestamp tags source_url
        text true = ([], .error (.invalidArgument "preserve_system_tags"))) ∧
    (tags.any (fun tag => starts_with tag systemTagPrefix) = false →
      ∀ b u k, env.bucket = some b → env.qdrantUrl = some u →
        env.qdrantApiKey = some k →
      ∃ tr doc,
        ds.upsert H systemTagPrefix env document_id timestamp tags source_url
          text true = (tr, .ok doc) ∧
        doc.tags = tags ++ (match env.currentDoc with
          | some current_doc => current_doc.tags
          | none => []).filter (fun tag => starts_with tag systemTagPrefix) ∧
        Effect.storeUpsertDocument doc ∈ tr) := by
  constructor
  · intro h
    simp [DataSource.upsert, h]
  · intro h b u k hb hu hk
    simp only [DataSource.upsert, hb, hu, hk]
    rw [if_neg (by simp [h])]
    refine ⟨_, _, rfl, ?_, ?_⟩
    · simp [Document.new]
    · simp [List.mem_append]

/-- Witness for C6 at a concrete input (prefix `"sys:"`, offending tag
`"sys:x"`, and the passing case with tag `"a"`). -/
theorem upsert_system_tag_guard_witness :
    (["sys:x"].any (fun tag => starts_with tag "sys:") = true →
      DataSource.upsert ⟨1, 0, "ds", "iid", ⟨"p", "m", none, "s", 8, false⟩⟩
        (fun s => s) "sys:" ⟨none, some "b", some "u", some "k", [], fun _ => [], 5, 6⟩
        "doc" (some 7) ["sys:x"] none "txt" true
        = ([], .error (.invalidArgument "preserve_system_tags"))) ∧
    (["sys:x"].any (fun tag => starts_with tag "sys:") = true) := by
  refine ⟨?_, by decide⟩
  exact (upsert_system_tag_guard ⟨1, 0, "ds", "iid", ⟨"p", "m", none, "s", 8, false⟩⟩
    (fun s => s) "sys:" ⟨none, some "b", some "u", some "k", [], fun _ => [], 5, 6⟩
    "doc" (some 7) ["sys:x"] none "txt").1

/-- **C7**: when the splitter returns no chunks, the vector upsert is skipped
but the delete of prior points still runs and the metadata row is committed
with `chunk_count = 0` and `token_count = 0`. -/
theorem upsert_empty_splits (ds : DataSource) (H : String → String)
    (systemTagPrefix : String) (env : UpsertEnv) (document_id : String)
    (timestamp : Option Nat) (tags : List String) (source_url : Option String)
    (text : String) (preserve_system_tags : Bool)
    (hguard : ¬(preserve_system_tags = true ∧
      tags.any (fun tag => starts_with tag systemTagPrefix) = true))
    (b u k : String) (hb : env.bucket = some b) (hu : env.qdrantUrl = some u)
    (hk : env.qdrantApiKey = some k) (hsplits : env.splits = []) :
    ∃ tr doc,
      ds.upsert H systemTagPrefix env document_id timestamp tags source_url
        text preserve_system_tags = (tr, .ok doc) ∧
      doc.chunk_count = 0 ∧
      doc.token_count = some 0 ∧
      Effect.qdrantDeletePoints (H document_id) ∈ tr ∧
      Effect.storeUpsertDocument doc ∈ tr ∧
      (∀ n, Effect.qdrantUpsertPoints n ∉ tr) := by
  simp only [DataSource.upsert, hb, hu, hk, hsplits, if_neg hguard]
  refine ⟨_, _, rfl, ?_, ?_, ?_, ?_, ?_⟩
  · rfl
  · simp
  · simp [List.mem_append]
  · simp [List.mem_append]
  · intro n
    cases preserve_system_tags <;> simp [List.mem_append]

/-- Witness for C7 at a concrete input with an empty splitter output. -/
theorem upsert_empty_splits_witness :
    ¬((false = true) ∧ (["a"].any (fun tag => starts_with tag "sys:") = true)) ∧
    (∃ tr doc,
      DataSource.upsert ⟨1, 0, "ds", "iid", ⟨"p", "m", none, "s", 8, false⟩⟩
        (fun s => s) "sys:" ⟨none, some "b", some "u", some "k", [], fun _ => [], 5, 6⟩
        "doc" (some 7) ["a"] none "txt" false = (tr, .ok doc) ∧
      doc.chunk_count = 0 ∧
      doc.token_count = some 0 ∧
      Effect.qdrantDeletePoints ((fun s => s) "doc") ∈ tr ∧
      Effect.storeUpsertDocument doc ∈ tr ∧
      (∀ n, Effect.qdrantUpsertPoints n ∉ tr)) :=
  ⟨by decide,
    upsert_empty_splits ⟨1, 0, "ds", "iid", ⟨"p", "m", none, "s", 8, false⟩⟩
      (fun s => s) "sys:" ⟨none, some "b", some "u", some "k", [], fun _ => [], 5, 6⟩
      "doc" (some 7) ["a"] none "txt" false (by decide)
      "b" "u" "k" rfl rfl rfl rfl⟩

theorem foldl_append_shift : ∀ (tgs : List String) (s : String),
    tgs.foldl (fun st tag => st ++ tag) s
      = s ++ tgs.foldl (fun st tag => st ++ tag) "" := by
  intro tgs
  induction tgs with
  | nil => intro s; exact (String.append_empty s).symm
  | cons t rest ih =>
    intro s
    rw [List.foldl_cons, List.foldl_cons, ih (s ++ t), ih ("" ++ t),
      String.empty_append, String.append_assoc]

/-- The hasher's byte stream is the plain concatenation
`document_id ‖ text ‖ ascii(timestamp) ‖ tag₀ ‖ tag₁ ‖ …` of the spec. -/
theorem documentHashBytes_spec (document_id text : String) (timestamp : Nat)
    (tags : List String) :
    documentHashBytes document_id text timestamp tags
      = document_id ++ text ++ toString timestamp ++ String.join tags := by
  rw [documentHashBytes, String.join, foldl_append_shift, String.empty_append]

/-- Any successful `upsert` commits `H` of `documentHashBytes` over the
resolved timestamp and the merged tag list as the document version hash. -/
theorem upsert_ok_hash (ds : DataSource) (H : String → String)
    (systemTagPrefix : String) (env : UpsertEnv) (document_id : String)
    (timestamp : Option Nat) (tags : List String) (source_url : Option String)
    (text : String) (preserve_system_tags : Bool) (tr : List Effect)
    (doc : Document)
    (h : ds.upsert H systemTagPrefix env document_id timestamp tags source_url
      text preserve_system_tags = (tr, .ok doc)) :
    doc.hash = H (documentHashBytes document_id text (timestamp.getD env.now)
      (upsertMergedTags systemTagPrefix env tags preserve_system_tags)) := by
  unfold DataSource.upsert at h
  split at h
  · simp at h
  · rcases henvb : env.bucket with _ | b <;> rw [henvb] at h
    · simp at h
    · rcases henvu : env.qdrantUrl with _ | u <;> rw [henvu] at h
      · simp at h
      · rcases henvk : env.qdrantApiKey with _ | k <;> rw [henvk] at h
        · simp at h
        · simp only [Prod.mk.injEq, Except.ok.injEq] at h
          rw [← h.2]
          cases timestamp <;> rfl

/-- **C4**: the document version hash computed by `upsert` is the fixed hash
`H` of the byte concatenation `document_id ‖ text ‖ ascii(timestamp) ‖ tag₀ ‖
tag₁ ‖ …`, with the tags in post-merge order; consequently two upserts that
agree on `(document_id, text, resolved timestamp, merged tags in order)`
produce the same `document_hash`. -/
theorem upsert_hash_stability
    (ds : DataSource) (H : String → String) (systemTagPrefix : String)
    (env : UpsertEnv) (document_id : String) (timestamp : Option Nat)
    (tags : List String) (source_url : Option String) (text : String)
    (preserve_system_tags : Bool)
    (ds' : DataSource) (env' : UpsertEnv) (document_id' : String)
    (timestamp' : Option Nat) (tags' : List String)
    (source_url' : Option String) (text' : String)
    (preserve_system_tags' : Bool)
    (tr tr' : List Effect) (doc doc' : Document)
    (h : ds.upsert H systemTagPrefix env document_id timestamp tags source_url
      text preserve_system_tags = (tr, .ok doc))
    (h' : DataSource.upsert ds' H systemTagPrefix env' document_id' timestamp'
      tags' source_url' text' preserve_system_tags' = (tr', .ok doc')) :
    doc.hash = H (document_id ++ text ++ toString (timestamp.getD env.now) ++
      String.join (upsertMergedTags systemTagPrefix env tags
        preserve_system_tags)) ∧
    (document_id' = document_id → text' = text →
      timestamp'.getD env'.now = timestamp.getD env.now →
      upsertMergedTags systemTagPrefix env' tags' preserve_system_tags'
        = upsertMergedTags systemTagPrefix env tags preserve_system_tags →
      doc'.hash = doc.hash) := by
  have e1 := upsert_ok_hash ds H systemTagPrefix env document_id timestamp
    tags source_url text preserve_system_tags tr doc h
  have e2 := upsert_ok_hash ds' H systemTagPrefix env' document_id' timestamp'
    tags' source_url' text' preserve_system_tags' tr' doc' h'
  constructor
  · rw [e1, documentHashBytes_spec]
  · intro hid htext hts htags
    rw [e1, e2, hid, htext, hts, htags]

/-- Witness for C4: a concrete successful upsert pair (the same call twice). -/
theorem upsert_hash_stability_witness :
    ∃ tr doc,
      DataSource.upsert ⟨1, 0, "ds", "iid", ⟨"p", "m", none, "s", 8, false⟩⟩
        (fun s => s) "sys:" ⟨none, some "b", some "u", some "k", ["c1"], fun _ => [2], 5, 6⟩
        "doc" (some 7) ["a"] none "hi" false = (tr, .ok doc) ∧
      doc.hash = "doc" ++ "hi" ++ toString ((some 7 : Option Nat).getD
        (⟨none, some "b", some "u", some "k", ["c1"], fun _ => [2], 5, 6⟩ : UpsertEnv).now) ++
        String.join (upsertMergedTags "sys:"
          ⟨none, some "b", some "u", some "k", ["c1"], fun _ => [2], 5, 6⟩ ["a"] false) := by
  obtain ⟨tr, doc, h⟩ :
      ∃ tr doc,
        DataSource.upsert ⟨1, 0, "ds", "iid", ⟨"p", "m", none, "s", 8, false⟩⟩
          (fun s => s) "sys:"
          ⟨none, some "b", some "u", some "k", ["c1"], fun _ => [2], 5, 6⟩
          "doc" (some 7) ["a"] none "hi" false = (tr, .ok doc) := ⟨_, _, rfl⟩
  exact ⟨tr, doc, h, (upsert_hash_stability
    ⟨1, 0, "ds", "iid", ⟨"p", "m", none, "s", 8, false⟩⟩ (fun s => s) "sys:"
    ⟨none, some "b", some "u", some "k", ["c1"], fun _ => [2], 5, 6⟩
    "doc" (some 7) ["a"] none "hi" false
    ⟨1, 0, "ds", "iid", ⟨"p", "m", none, "s", 8, false⟩⟩
    ⟨none, some "b", some "u", some "k", ["c1"], fun _ => [2], 5, 6⟩
    "doc" (some 7) ["a"] none "hi" false
    tr tr doc doc h h).1⟩

/-- **C8**: a timestamp filter composes inclusive bounds: `gt` values become a
`must` range condition with the *inclusive* `gte` field and `lt` values a
`must` range condition with the *inclusive* `lte` field, so a payload
timestamp equal to the bound satisfies the condition. -/
theorem search_timestamp_filter_inclusive (tagsF : Option TagsFilter)
    (tf : TimestampFilter) :
    ∃ qf, buildSearchFilter (some { tags := tagsF, timestamp := some tf })
        = some qf ∧
      (∀ g, tf.gt = some g →
        ({ key := "timestamp", matchValue := none,
           range := some { lt := none, gt := none, gte := some g, lte := none } }
          : QFieldCondition) ∈ qf.must ∧
        ∀ v : Nat,
          (rangeSatisfied v { lt := none, gt := none, gte := some g, lte := none }
            = true ↔ g ≤ v)) ∧
      (∀ l, tf.lt = some l →
        ({ key := "timestamp", matchValue := none,
           range := some { lt := none, gt := none, gte := none, lte := some l } }
          : QFieldCondition) ∈ qf.must ∧
        ∀ v : Nat,
          (rangeSatisfied v { lt := none, gt := none, gte := none, lte := some l }
            = true ↔ v ≤ l)) := by
  refine ⟨_, rfl, ?_, ?_⟩
  · intro g hg
    constructor
    · simp [buildSearchFilter, hg, List.mem_append]
    · intro v; simp [rangeSatisfied]
  · intro l hl
    constructor
    · simp [buildSearchFilter, hl, List.mem_append]
    · intro v; simp [rangeSatisfied]

/-- Witness for C8 at the concrete filter `{timestamp: {gt: 11, lt: 22}}`:
payloads with timestamp exactly `11` (resp. `22`) satisfy the bounds. -/
theorem search_timestamp_filter_inclusive_witness :
    ∃ qf, buildSearchFilter
        (some { tags := none, timestamp := some ⟨some 11, some 22⟩ })
        = some qf ∧
      ({ key := "timestamp", matchValue := none,
         range := some { lt := none, gt := none, gte := some 11, lte := none } }
        : QFieldCondition) ∈ qf.must ∧
      (rangeSatisfied 11 { lt := none, gt := none, gte := some 11, lte := none }
        = true ↔ 11 ≤ 11) ∧
      ({ key := "timestamp", matchValue := none,
         range := some { lt := none, gt := none, gte := none, lte := some 22 } }
        : QFieldCondition) ∈ qf.must ∧
      (rangeSatisfied 22 { lt := none, gt := none, gte := none, lte := some 22 }
        = true ↔ 22 ≤ 22) := by
  obtain ⟨qf, h1, h2, h3⟩ :=
    search_timestamp_filter_inclusive none ⟨some 11, some 22⟩
  exact ⟨qf, h1, (h2 11 rfl).1, (h2 11 rfl).2 11, (h3 22 rfl).1, (h3 22 rfl).2 22⟩

/-! ## Read path: `DataSource::search` (lines 662-1093) -/

/-- `DataSource::MAX_TOP_K_SEARCH` (line 662). -/
def MAX_TOP_K_SEARCH : Nat := 128

/-- Oracle answers of the collaborators used by one `search` call. -/
structure SearchEnv where
  /-- `QDRANT_URL` (line 244, via `qdrant_client()` at line 772). -/
  qdrantUrl : Option String
  /-- `QDRANT_API_KEY` (line 247). -/
  qdrantApiKey : Option String
  /-- `DUST_DATA_SOURCES_BUCKET` (line 841). -/
  bucket : Option String
  /-- The parsed vector-query hits `(document_id, chunk)` (lines 773-832);
  the payloads are assumed well-formed (parse failures are not modeled). -/
  hits : List (String × Chunk)
  /-- `store.load_data_source_document` (line 856). -/
  loadDoc : String → Option Document
  /-- Blob download of `content.txt` (line 876). -/
  blobGet : String → String
  /-- Qdrant scroll payloads `(text, chunk_offset)` for a
  `(document_id_hash, chunk_offset ∈ …)` filter (lines 940-1007). -/
  scroll : String → List Nat → List (String × Nat)

/-- Comparator `a.offset.cmp(&b.offset)` on chunks (line 1010). -/
def chunkOffsetLe (a b : Chunk) : Prop := a.offset ≤ b.offset

instance : DecidableRel chunkOffsetLe := fun a b => Nat.decLe a.offset b.offset

/-- Comparator `a.1.cmp(&b.1)` on scrolled `(text, offset)` payloads
(line 1008). -/
def parsedOffsetLe (a b : String × Nat) : Prop := a.2 ≤ b.2

instance : DecidableRel parsedOffsetLe := fun a b => Nat.decLe a.2 b.2

/-- A chunk's score with `unwrap_or(0.0)` (lines 1038-1039). -/
def chunkScore (c : Chunk) : Int := c.score.getD 0

/-- The descending-score comparator of lines 1037-1043. -/
def chunkScoreGe (a b : Chunk) : Prop := chunkScore b ≤ chunkScore a

instance : DecidableRel chunkScoreGe := fun a b => Int.decLe (chunkScore b) (chunkScore a)

instance : IsTotal Chunk chunkScoreGe :=
  ⟨fun a b => le_total (chunkScore b) (chunkScore a)⟩

instance : IsTrans Chunk chunkScoreGe :=
  ⟨fun _ _ _ h₁ h₂ => le_trans h₂ h₁⟩

/-- The merge `while` loop body for one hit chunk (lines 1013-1032): consume
scrolled expansion chunks (in offset order) whose planner anchor equals this
chunk's offset, appending the text of later offsets to the chunk text and
accumulating the text of earlier offsets into `prepend`; each consumed chunk
bumps the counter (`token_count += chunk_size` in the source).  `none` models
the `new_offsets.get(&…).unwrap()` panic when a scrolled offset is missing
from the planner map. -/
def mergeOne (new_offsets : List (Nat × Nat)) (chunkOffset : Nat) :
    List (String × Nat) → String → String → Nat →
    Option (String × String × List (String × Nat) × Nat)
  | [], prepend, text, cnt => some (prepend, text, [], cnt)
  | (t, o) :: rest, prepend, text, cnt =>
    match new_offsets.lookup o with
    | none => none
    | some anchor =>
      if anchor = chunkOffset then
        if chunkOffset < o then
          mergeOne new_offsets chunkOffset rest prepend (text ++ (" " ++ t)) (cnt + 1)
        else
          mergeOne new_offsets chunkOffset rest (prepend ++ (t ++ " ")) text (cnt + 1)
      else some (prepend, text, (t, o) :: rest, cnt)

/-- The `chunks.into_iter().map(…)` merge walk (lines 1009-1036), threading
the shared `counter` cursor as the not-yet-consumed suffix of the scrolled
list; returns the rewritten chunks and the total number of merged expansion
chunks. -/
def mergeAll (new_offsets : List (Nat × Nat)) :
    List Chunk → List (String × Nat) → Option (List Chunk × Nat)
  | [], _ => some ([], 0)
  | c :: cs, parsed =>
    match mergeOne new_offsets c.offset parsed "" c.text 0 with
    | none => none
    | some (prepend, text, rest, cnt) =>
      match mergeAll new_offsets cs rest with
      | none => none
      | some (cs', cnt') => some ({ c with text := prepend ++ text } :: cs', cnt + cnt')

/-- The per-document neighborhood-expansion task of `search`
(lines 895-1048): filter this document's hit chunks, plan extra offsets,
scroll them from the vector index, merge them into the hit chunks, and
re-sort by descending score.  The dead `offset_set` of lines 910-913 (built
but never read) is omitted. -/
def expandDocument (H : String → String) (env : SearchEnv) (chunk_size : Nat)
    (target : Nat) (hits : List (String × Chunk)) (d : Document) :
    List Effect × Except DustError Document :=
  let chunks := (hits.filter (fun p => p.1 = d.document_id)).map Prod.snd
  let token_count := chunks.length * chunk_size
  let d := { d with token_count := some token_count }
  let current_length := chunks.length * chunk_size
  -- line 915: `(target as i64 - current_length as i64) / chunk_size as i64`.
  if Int.tdiv ((target : Int) - (current_length : Int)) (chunk_size : Int) ≤ 0 then
    ([], .ok { d with chunks := chunks })
  else
    -- lines 919-923.
    match target_document_tokens_offsets (chunks.map (fun c => c.offset))
        ((target - current_length) / chunk_size) d.chunk_count with
    | none => ([], .error (.crash .plannerDivByZero))
    | some new_offsets =>
      let offset_values := new_offsets.map Prod.fst
      let new_offsets_count := offset_values.length
      if new_offsets_count = 0 then
        ([], .ok { d with chunks := chunks })
      else
        -- lines 937-1007: scroll the planned offsets.
        let document_id_hash := H d.document_id
        let results_expand := env.scroll document_id_hash offset_values
        let parsed_results := results_expand.insertionSort parsedOffsetLe
        let chunks := chunks.insertionSort chunkOffsetLe
        match mergeAll new_offsets chunks parsed_results with
        | none =>
          ([.qdrantScroll document_id_hash offset_values new_offsets_count],
            .error (.crash .anchorUnwrapNone))
        | some (merged, cnt) =>
          let sorted := merged.insertionSort chunkScoreGe
          ([.qdrantScroll document_id_hash offset_values new_offsets_count],
            .ok { d with
                  chunks := sorted
                  token_count := some (token_count + cnt * chunk_size) })

/-- The distinct `document_id` set of the hits (lines 834-838); the `HashSet`
iteration order is unspecified in Rust, so a canonical deduplication is used
(only membership matters downstream). -/
def documentIds (chunks : List (String × Chunk)) : List String :=
  (chunks.map Prod.fst).dedup

/-- One document load of the fan-out (lines 847-890): load the metadata row
(`None` is the fatal `"Document not found"`), and when `full_text` is set
fetch `content.txt` for the row's hash and attach it. -/
def loadDocumentStep (H : String → String) (env : SearchEnv)
    (project_id : Nat) (internal_id : String) (full_text : Bool)
    (document_id : String) : List Effect × Except DustError Document :=
  match env.loadDoc document_id with
  | none => ([.storeLoadDocument document_id], .error .documentNotFound)
  | some d =>
    if full_text then
      let document_id_hash := H document_id
      let bucket_path := toString project_id ++ "/" ++ internal_id ++ "/" ++
        document_id_hash
      let content_path := bucket_path ++ "/" ++ d.hash ++ "/content.txt"
      ([.storeLoadDocument document_id, .blobGet content_path],
        .ok { d with text := some (env.blobGet content_path) })
    else
      ([.storeLoadDocument document_id], .ok d)

/-- The document-load fan-out (lines 846-890), serialized in id order; any
failure fails the whole request (`try_collect`). -/
def loadDocuments (H : String → String) (env : SearchEnv) (project_id : Nat)
    (internal_id : String) (full_text : Bool) :
    List String → List Effect × Except DustError (List Document)
  | [] => ([], .ok [])
  | document_id :: ids =>
    let p := loadDocumentStep H env project_id internal_id full_text document_id
    match p.2 with
    | .error e => (p.1, .error e)
    | .ok d =>
      let q := loadDocuments H env project_id internal_id full_text ids
      match q.2 with
      | .error e => (p.1 ++ q.1, .error e)
      | .ok ds => (p.1 ++ q.1, .ok (d :: ds))

/-- The expansion fan-out (lines 895-1060), serialized in document order. -/
def expandDocuments (H : String → String) (env : SearchEnv) (chunk_size : Nat)
    (target : Nat) (hits : List (String × Chunk)) :
    List Document → List Effect × Except DustError (List Document)
  | [] => ([], .ok [])
  | d :: ds =>
    let p := expandDocument H env chunk_size target hits d
    match p.2 with
    | .error e => (p.1, .error e)
    | .ok d' =>
      let q := expandDocuments H env chunk_size target hits ds
      match q.2 with
      | .error e => (p.1 ++ q.1, .error e)
      | .ok ds' => (p.1 ++ q.1, .ok (d' :: ds'))

/-- The final sort key of `search` (lines 1077-1083): the score of a
document's first chunk.  The source unwraps `chunks.first()`; the default `0`
stands in for the panic on an empty chunk list, which no claim below relies
on. -/
def docHeadScore (d : Document) : Int :=
  match d.chunks.head? with
  | some c => chunkScore c
  | none => 0

/-- Descending comparator on documents by first-chunk score. -/
def docScoreGe (a b : Document) : Prop := docHeadScore b ≤ docHeadScore a

instance : DecidableRel docScoreGe := fun a b => Int.decLe (docHeadScore b) (docHeadScore a)

/-- `DataSource::search` (lines 662-1093). -/
def DataSource.search (ds : DataSource) (H : String → String) (env : SearchEnv)
    (query : String) (top_k : Nat) (filter : Option SearchFilter)
    (full_text : Bool) (target_document_tokens : Option Nat) :
    List Effect × Except DustError (List Document) :=
  -- lines 674-676: hard cap, checked before any other work.
  if top_k > MAX_TOP_K_SEARCH then
    ([], .error (.invalidArgument "top_k"))
  else
    -- lines 679-685: embed the query.
    let embedEffects : List Effect := [.embedQuery query]
    -- lines 687-770: compose the filter.
    let f := buildSearchFilter filter
    -- line 772: `qdrant_client()` reads the env vars.
    match env.qdrantUrl, env.qdrantApiKey with
    | none, _ => (embedEffects, .error (.configError "QDRANT_URL"))
    | some _, none => (embedEffects, .error (.configError "QDRANT_API_KEY"))
    | some _, some _ =>
      -- lines 773-832: vector query and payload parsing.
      let searchEffects := embedEffects ++ [.qdrantSearch top_k f]
      let chunks := env.hits
      -- lines 834-838.
      let document_ids := documentIds chunks
      -- lines 840-844.
      match env.bucket with
      | none => (searchEffects, .error (.configError "DUST_DATA_SOURCES_BUCKET"))
      | some _ =>
        -- lines 846-890: load the document rows (fan-out of 16).
        let lp := loadDocuments H env ds.project_id ds.internal_id full_text
          document_ids
        match lp.2 with
        | .error e => (searchEffects ++ lp.1, .error e)
        | .ok documents =>
          -- lines 892-1074.
          match target_document_tokens with
          | some target =>
            let ep := expandDocuments H env ds.config.max_chunk_size target
              chunks documents
            match ep.2 with
            | .error e => (searchEffects ++ lp.1 ++ ep.1, .error e)
            | .ok expanded =>
              -- lines 1076-1083: sort by first-chunk score, descending.
              (searchEffects ++ lp.1 ++ ep.1,
                .ok (expanded.insertionSort docScoreGe))
          | none =>
            -- lines 1061-1073.
            let documents := documents.map (fun d =>
              let dchunks := (chunks.filter
                (fun p => p.1 = d.document_id)).map Prod.snd
              { d with
                token_count := some (dchunks.length * ds.config.max_chunk_size)
                chunks := dchunks })
            (searchEffects ++ lp.1, .ok (documents.insertionSort docScoreGe))

/-! ## Read-path lemmas -/

theorem tdto_isSome (offsets : List Nat) (g t : Nat) (hne : offsets ≠ []) :
    (target_document_tokens_offsets offsets g t).isSome := by
  simp only [target_document_tokens_offsets]
  split
  · rfl
  · split
    case _ heq =>
      exfalso
      have hlen := List.length_insertionSort (· ≤ ·) offsets
      rw [heq] at hlen
      exact hne (List.length_eq_zero.mp hlen.symm)
    · rfl

theorem loadDocumentStep_error (H : String → String) (env : SearchEnv)
    (project_id : Nat) (internal_id : String) (full_text : Bool)
    (document_id : String) (e : DustError)
    (h : (loadDocumentStep H env project_id internal_id full_text
      document_id).2 = .error e) :
    e = .documentNotFound := by
  unfold loadDocumentStep at h
  split at h
  · simp at h
    exact h.symm
  · split at h <;> simp at h

theorem loadDocumentStep_ok (H : String → String) (env : SearchEnv)
    (project_id : Nat) (internal_id : String) (full_text : Bool)
    (document_id : String) (d' : Document)
    (h : (loadDocumentStep H env project_id internal_id full_text
      document_id).2 = .ok d') :
    ∃ d0, env.loadDoc document_id = some d0 ∧
      d'.document_id = d0.document_id := by
  unfold loadDocumentStep at h
  split at h
  · simp at h
  case _ d0 heq =>
    refine ⟨d0, heq, ?_⟩
    split at h <;> simp only [Prod.snd] at h <;> rw [← Except.ok.inj h]

theorem loadDocuments_error (H : String → String) (env : SearchEnv)
    (project_id : Nat) (internal_id : String) (full_text : Bool) :
    ∀ (ids : List String) (e : DustError),
      (loadDocuments H env project_id internal_id full_text ids).2 = .error e →
      e = .documentNotFound := by
  intro ids
  induction ids with
  | nil => intro e h; simp [loadDocuments] at h
  | cons document_id ids ih =>
    intro e h
    simp only [loadDocuments] at h
    split at h
    case _ e' heq =>
      simp at h
      exact h ▸ loadDocumentStep_error H env project_id internal_id full_text
        document_id e' heq
    case _ d heq =>
      split at h
      case _ e' heq2 =>
        simp at h
        exact h ▸ ih e' heq2
      case _ ds heq2 =>
        simp at h

theorem loadDocuments_ok_mem (H : String → String) (env : SearchEnv)
    (project_id : Nat) (internal_id : String) (full_text : Bool) :
    ∀ (ids : List String) (docs : List Document),
      (loadDocuments H env project_id internal_id full_text ids).2 = .ok docs →
      ∀ d ∈ docs, ∃ id ∈ ids, ∃ d0, env.loadDoc id = some d0 ∧
        d.document_id = d0.document_id := by
  intro ids
  induction ids with
  | nil =>
    intro docs h d hd
    simp [loadDocuments] at h
    rw [h] at hd
    exact absurd hd (List.not_mem_nil d)
  | cons document_id ids ih =>
    intro docs h d hd
    simp only [loadDocuments] at h
    split at h
    case _ e' heq => simp at h
    case _ d1 heq =>
      split at h
      case _ e' heq2 => simp at h
      case _ ds heq2 =>
        simp only [Prod.snd, Except.ok.injEq] at h
        rw [← h] at hd
        rcases List.mem_cons.mp hd with hd | hd
        · obtain ⟨d0, hload, hid⟩ := loadDocumentStep_ok H env project_id
            internal_id full_text document_id d1 heq
          exact ⟨document_id, List.mem_cons_self _ _, d0, hload, hd ▸ hid⟩
        · obtain ⟨id, hidmem, d0, hload, hdid⟩ := ih ds heq2 d hd
          exact ⟨id, List.mem_cons_of_mem _ hidmem, d0, hload, hdid⟩

theorem expandDocument_error (H : String → String) (env : SearchEnv)
    (chunk_size target : Nat) (hits : List (String × Chunk)) (d : Document)
    (e : DustError)
    (h : (expandDocument H env chunk_size target hits d).2 = .error e) :
    e = .crash .plannerDivByZero ∨ e = .crash .anchorUnwrapNone := by
  simp only [expandDocument] at h
  split at h
  · simp at h
  · split at h
    case _ heq =>
      simp at h
      exact .inl h.symm
    case _ m heq =>
      split at h
      · simp at h
      · split at h
        case _ heq2 =>
          simp at h
          exact .inr h.symm
        case _ pr heq2 => simp at h

theorem expandDocument_ne_plannerCrash (H : String → String) (env : SearchEnv)
    (chunk_size target : Nat) (hits : List (String × Chunk)) (d : Document)
    (hne : hits.filter (fun p => p.1 = d.document_id) ≠ []) :
    (expandDocument H env chunk_size target hits d).2
      ≠ .error (.crash .plannerDivByZero) := by
  intro h
  simp only [expandDocument] at h
  split at h
  · simp at h
  · split at h
    case _ heq =>
      exact Option.isSome_iff_ne_none.mp
        (tdto_isSome _ _ _ (by simpa [List.map_eq_nil_iff] using hne)) heq
    case _ m heq =>
      split at h
      · simp at h
      · split at h
        case _ heq2 => simp at h
        case _ pr heq2 => simp at h

theorem expandDocuments_error_mem (H : String → String) (env : SearchEnv)
    (chunk_size target : Nat) (hits : List (String × Chunk)) :
    ∀ (docs : List Document) (e : DustError),
      (expandDocuments H env chunk_size target hits docs).2 = .error e →
      ∃ d ∈ docs, (expandDocument H env chunk_size target hits d).2 = .error e := by
  intro docs
  induction docs with
  | nil => intro e h; simp [expandDocuments] at h
  | cons d docs ih =>
    intro e h
    simp only [expandDocuments] at h
    split at h
    case _ e' heq =>
      simp at h
      exact ⟨d, List.mem_cons_self _ _, h ▸ heq⟩
    case _ d' heq =>
      split at h
      case _ e' heq2 =>
        simp at h
        obtain ⟨d2, hmem, herr⟩ := ih e' heq2
        exact ⟨d2, List.mem_cons_of_mem _ hmem, h ▸ herr⟩
      case _ ds' heq2 => simp at h

/-- **C5**: `search` rejects `top_k > 128` with `InvalidArgument` immediately
— before embedding the query or touching any store (empty effect trace) —
and for `top_k ≤ 128` the cap check passes (no `top_k` `InvalidArgument` can
be produced by the rest of the call). -/
theorem search_top_k_cap (ds : DataSource) (H : String → String)
    (env : SearchEnv) (query : String) (top_k : Nat)
    (filter : Option SearchFilter) (full_text : Bool)
    (target_document_tokens : Option Nat) :
    (MAX_TOP_K_SEARCH < top_k →
      ds.search H env query top_k filter full_text target_document_tokens
        = ([], .error (.invalidArgument "top_k"))) ∧
    (top_k ≤ MAX_TOP_K_SEARCH →
      (ds.search H env query top_k filter full_text
        target_document_tokens).2 ≠ .error (.invalidArgument "top_k")) := by
  constructor
  · intro h
    simp only [DataSource.search, if_pos h]
  · intro h hcontra
    simp only [DataSource.search] at hcontra
    rw [if_neg (not_lt.mpr h)] at hcontra
    split at hcontra
    · simp at hcontra
    · simp at hcontra
    · split at hcontra
      · simp at hcontra
      · split at hcontra
        case _ e heq =>
          simp at hcontra
          have := loadDocuments_error H env ds.project_id ds.internal_id
            full_text (documentIds env.hits) e heq
          rw [this] at hcontra
          exact absurd hcontra (by simp)
        case _ docs heq =>
          split at hcontra
          case _ target =>
            split at hcontra
            case _ e heq2 =>
              simp at hcontra
              rcases expandDocuments_error_mem H env ds.config.max_chunk_size
                  target env.hits docs e heq2 with ⟨d, _, herr⟩
              rcases expandDocument_error H env ds.config.max_chunk_size
                  target env.hits d e herr with h1 | h1 <;>
                rw [h1] at hcontra <;> exact absurd hcontra (by simp)
            case _ docs2 heq2 => simp at hcontra
          case _ => simp at hcontra

/-- A concrete data source for witnesses. -/
def sampleDS : DataSource := ⟨1, 0, "ds", "iid", ⟨"p", "m", none, "s", 8, false⟩⟩

/-- A concrete search environment for witnesses (empty index). -/
def sampleSearchEnv : SearchEnv :=
  { qdrantUrl := some "u"
    qdrantApiKey := some "k"
    bucket := some "b"
    hits := []
    loadDoc := fun _ => none
    blobGet := fun _ => ""
    scroll := fun _ _ => [] }

/-- Witness for C5 at `top_k = 129` (rejected with an empty effect trace) and
`top_k = 3` (cap check passes). -/
theorem search_top_k_cap_witness :
    (MAX_TOP_K_SEARCH < 129 ∧
      sampleDS.search (fun s => s) sampleSearchEnv "q" 129 none false none
        = ([], .error (.invalidArgument "top_k"))) ∧
    (3 ≤ MAX_TOP_K_SEARCH ∧
      (sampleDS.search (fun s => s) sampleSearchEnv "q" 3 none false none).2
        ≠ .error (.invalidArgument "top_k")) :=
  ⟨⟨by decide, (search_top_k_cap sampleDS (fun s => s) sampleSearchEnv "q" 129
      none false none).1 (by decide)⟩,
   ⟨by decide, (search_top_k_cap sampleDS (fun s => s) sampleSearchEnv "q" 3
      none false none).2 (by decide)⟩⟩

/-- **C9**: the planner returns the empty mapping whenever the document has
no chunks (`T = 0`), for any offsets and budget; for a non-empty offsets
list its internal division `chunks_to_grow / offsets.len()` is never a
division by zero (the result is defined — no panic); and the search read
path calls the planner only with the non-empty hit-chunk offsets of each
document, so — under the store contract that a row loaded for `document_id`
carries that id — `search` can never reach the division-by-zero panic. -/
theorem planner_totality :
    (∀ (offsets : List Nat) (g : Nat),
      target_document_tokens_offsets offsets g 0 = some []) ∧
    (∀ (offsets : List Nat) (g t : Nat), offsets ≠ [] →
      (target_document_tokens_offsets offsets g t).isSome) ∧
    (∀ (ds : DataSource) (H : String → String) (env : SearchEnv)
      (query : String) (top_k : Nat) (filter : Option SearchFilter)
      (full_text : Bool) (target_document_tokens : Option Nat),
      (∀ id d0, env.loadDoc id = some d0 → d0.document_id = id) →
      (ds.search H env query top_k filter full_text
        target_document_tokens).2 ≠ .error (.crash .plannerDivByZero)) := by
  refine ⟨?_, ?_, ?_⟩
  · intro offsets g
    simp [target_document_tokens_offsets]
  · exact tdto_isSome
  · intro ds H env query top_k filter full_text tdt hcoh hcontra
    simp only [DataSource.search] at hcontra
    split at hcontra
    · simp at hcontra
    · split at hcontra
      · simp at hcontra
      · simp at hcontra
      · split at hcontra
        · simp at hcontra
        · split at hcontra
          case _ e heq =>
            simp at hcontra
            have := loadDocuments_error H env ds.project_id ds.internal_id
              full_text (documentIds env.hits) e heq
            rw [this] at hcontra
            exact absurd hcontra (by simp)
          case _ docs heq =>
            split at hcontra
            case _ target =>
              split at hcontra
              case _ e heq2 =>
                simp at hcontra
                rcases expandDocuments_error_mem H env ds.config.max_chunk_size
                    target env.hits docs e heq2 with ⟨d, hdmem, herr⟩
                obtain ⟨id, hidmem, d0, hload, hdid⟩ := loadDocuments_ok_mem H
                  env ds.project_id ds.internal_id full_text
                  (documentIds env.hits) docs heq d hdmem
                have hid : d.document_id = id := by
                  rw [hdid, hcoh id d0 hload]
                have hidhits : id ∈ env.hits.map Prod.fst :=
                  List.mem_dedup.mp hidmem
                obtain ⟨p, hp, hp1⟩ := List.mem_map.mp hidhits
                have hfilt : p ∈ env.hits.filter
                    (fun q => q.1 = d.document_id) :=
                  List.mem_filter.mpr ⟨hp, by simp [hp1, hid]⟩
                have hne := List.ne_nil_of_mem hfilt
                rw [hcontra] at herr
                exact expandDocument_ne_plannerCrash H env
                  ds.config.max_chunk_size target env.hits d hne herr
              case _ docs2 heq2 => simp at hcontra
            case _ => simp at hcontra

/-- Witness for C9 at concrete inputs. -/
theorem planner_totality_witness :
    target_document_tokens_offsets [3] 5 0 = some [] ∧
    (target_document_tokens_offsets [3] 5 9).isSome ∧
    (sampleDS.search (fun s => s) sampleSearchEnv "q" 3 none false
      (some 100)).2 ≠ .error (.crash .plannerDivByZero) :=
  ⟨planner_totality.1 [3] 5,
   planner_totality.2.1 [3] 5 9 (by decide),
   planner_totality.2.2 sampleDS (fun s => s) sampleSearchEnv "q" 3 none false
     (some 100) (fun id d0 h => by simp [sampleSearchEnv] at h)⟩

/-- The merge walk rewrites only the `text` field of each chunk: offsets,
hashes and scores come through unchanged, in order. -/
theorem mergeAll_key_eq (m : List (Nat × Nat)) :
    ∀ (chunks : List Chunk) (parsed : List (String × Nat))
      (merged : List Chunk) (k : Nat),
      mergeAll m chunks parsed = some (merged, k) →
      merged.map (fun c => (c.offset, c.hash, c.score))
        = chunks.map (fun c => (c.offset, c.hash, c.score)) := by
  intro chunks
  induction chunks with
  | nil =>
    intro parsed merged k h
    simp only [mergeAll, Option.some.injEq, Prod.mk.injEq] at h
    rw [← h.1]
  | cons c cs ih =>
    intro parsed merged k h
    simp only [mergeAll] at h
    split at h
    · simp at h
    case _ prepend text rest cnt heq =>
      split at h
      · simp at h
      case _ cs' cnt' heq2 =>
        simp only [Option.some.injEq, Prod.mk.injEq] at h
        rw [← h.1]
        simp only [List.map_cons]
        rw [ih rest cs' cnt' heq2]

/-- **C10**: neighborhood expansion never changes which chunks a document
has: the multiset of `(offset, hash, score)` triples of its chunks after
expansion equals the one before (the hit chunks of the document), only
reordered by descending score; apart from the chunk `text` fields, the only
document field that changes is `token_count`, which grows by exactly
`chunk_size` once per merged expansion chunk (`k` below). -/
theorem expansion_frame (H : String → String) (env : SearchEnv)
    (chunk_size target : Nat) (hits : List (String × Chunk)) (d : Document)
    (_hcs : 0 < chunk_size) (tr : List Effect) (d' : Document)
    (h : expandDocument H env chunk_size target hits d = (tr, .ok d')) :
    ∃ chunks' k,
      d' = { d with
             chunks := chunks'
             token_count := some
               (((hits.filter (fun p => p.1 = d.document_id)).map
                 Prod.snd).length * chunk_size + k * chunk_size) } ∧
      (chunks'.map (fun c => (c.offset, c.hash, c.score))).Perm
        (((hits.filter (fun p => p.1 = d.document_id)).map Prod.snd).map
          (fun c => (c.offset, c.hash, c.score))) ∧
      (List.Sorted chunkScoreGe
          ((hits.filter (fun p => p.1 = d.document_id)).map Prod.snd) →
        List.Sorted chunkScoreGe d'.chunks) := by
  simp only [expandDocument] at h
  split at h
  · simp only [Prod.mk.injEq, Except.ok.injEq] at h
    refine ⟨(hits.filter (fun p => p.1 = d.document_id)).map Prod.snd, 0,
      ?_, List.Perm.refl _, ?_⟩
    · rw [← h.2]
      simp
    · intro hs
      rw [← h.2]
      exact hs
  · split at h
    case _ heq => simp at h
    case _ m heq =>
      split at h
      · simp only [Prod.mk.injEq, Except.ok.injEq] at h
        refine ⟨(hits.filter (fun p => p.1 = d.document_id)).map Prod.snd, 0,
          ?_, List.Perm.refl _, ?_⟩
        · rw [← h.2]
          simp
        · intro hs
          rw [← h.2]
          exact hs
      · split at h
        case _ heq2 => simp at h
        case _ merged cnt heq2 =>
          simp only [Prod.mk.injEq, Except.ok.injEq] at h
          refine ⟨merged.insertionSort chunkScoreGe, cnt, ?_, ?_, ?_⟩
          · rw [← h.2]
          · have p1 := (List.perm_insertionSort chunkScoreGe merged).map
              (fun c => (c.offset, c.hash, c.score))
            have p2 := mergeAll_key_eq m _ _ merged cnt heq2
            have p3 := (List.perm_insertionSort chunkOffsetLe
              ((hits.filter (fun p => p.1 = d.document_id)).map Prod.snd)).map
              (fun c => (c.offset, c.hash, c.score))
            exact (p1.trans (p2 ▸ List.Perm.refl _)).trans p3
          · intro _
            rw [← h.2]
            exact List.sorted_insertionSort chunkScoreGe merged

/-- A concrete hit chunk for the C10 witness (offset 1, score 5). -/
def sampleHitChunk : Chunk := ⟨"B", "h1", 1, none, some 5⟩

/-- A concrete document row for the C10 witness (4 chunks in the index). -/
def sampleExpandDoc : Document :=
  ⟨"ds", 0, "doc", 7, [], none, "h", 2, 4, [], none, none⟩

/-- A search environment whose scroll returns the planned neighbors of
offset 1 (offsets 0 and 2). -/
def sampleExpandEnv : SearchEnv :=
  { qdrantUrl := some "u"
    qdrantApiKey := some "k"
    bucket := some "b"
    hits := [("doc", sampleHitChunk)]
    loadDoc := fun _ => none
    blobGet := fun _ => ""
    scroll := fun _ _ => [("A", 0), ("C", 2)] }

/-- Witness for C10 on a concrete expansion that actually merges two
neighbor chunks (`chunk_size = 1`, `target = 4`). -/
theorem expansion_frame_witness :
    0 < 1 ∧
    ∃ tr d',
      expandDocument (fun s => s) sampleExpandEnv 1 4
        [("doc", sampleHitChunk)] sampleExpandDoc = (tr, .ok d') ∧
      ∃ chunks' k,
        d' = { sampleExpandDoc with
               chunks := chunks'
               token_count := some
                 ((([("doc", sampleHitChunk)].filter
                   (fun p => p.1 = sampleExpandDoc.document_id)).map
                   Prod.snd).length * 1 + k * 1) } ∧
        (chunks'.map (fun c => (c.offset, c.hash, c.score))).Perm
          ((([("doc", sampleHitChunk)].filter
            (fun p => p.1 = sampleExpandDoc.document_id)).map Prod.snd).map
            (fun c => (c.offset, c.hash, c.score))) ∧
        (List.Sorted chunkScoreGe
            (([("doc", sampleHitChunk)].filter
              (fun p => p.1 = sampleExpandDoc.document_id)).map Prod.snd) →
          List.Sorted chunkScoreGe d'.chunks) := by
  obtain ⟨tr, d', h⟩ :
      ∃ tr d',
        expandDocument (fun s => s) sampleExpandEnv 1 4
          [("doc", sampleHitChunk)] sampleExpandDoc = (tr, .ok d') :=
    ⟨_, _, rfl⟩
  exact ⟨Nat.one_pos, tr, d', h,
    expansion_frame (fun s => s) sampleExpandEnv 1 4
      [("doc", sampleHitChunk)] sampleExpandDoc Nat.one_pos tr d' h⟩
